import Mathlib

/-!
Verification of the repository/object-store core of WizardGit (`libwgit.py`).

The Python source is shallowly embedded: filesystem paths are lists of path
components (canonical absolute paths, the empty list being the filesystem
root, which always exists and is a directory), the filesystem is an explicit
association list threaded through every operation, bytes are natural numbers,
and every Python function that can raise returns `Except PyErr`.
-/

/-- A canonical absolute filesystem path, as its list of components.
`[]` is the filesystem root. `os.path.realpath` maps every raw OS path into
this canonical space, and on canonical paths the parent (`os.path.join(p, "..")`
followed by `realpath`) is `List.dropLast`. -/
abbrev FsPath := List String

/-- Structured file contents.  Text files keep their string, the configuration
file keeps the section/key/value structure handled by the external
`configparser` collaborator (the spec treats the INI reader/writer as an
external interface providing `get`/`set`), and object files keep raw bytes. -/
inductive FileContent where
  | text (s : String)
  | ini (sections : List (String × List (String × String)))
  | bytes (bs : List Nat)
deriving DecidableEq, Repr

/-- A filesystem node: a directory or a regular file with contents. -/
inductive FsNode where
  | dir
  | file (content : FileContent)
deriving DecidableEq, Repr

/-- The filesystem: an association list from paths to nodes; the first entry
for a path shadows later (stale) entries. -/
abbrev FS := List (FsPath × FsNode)

/-- Look up the node stored at a path (first match wins). -/
def fsGet : FS → FsPath → Option FsNode
  | [], _ => none
  | (q, n) :: rest, p => if q = p then some n else fsGet rest p

/-- `os.path.exists` on the embedded filesystem. -/
def fsExists (fs : FS) (p : FsPath) : Bool :=
  (fsGet fs p).isSome

/-- `os.path.isdir` on the embedded filesystem. -/
def fsIsDir (fs : FS) (p : FsPath) : Bool :=
  fsGet fs p = some .dir

/-- `os.path.isfile` on the embedded filesystem. -/
def fsIsFile (fs : FS) (p : FsPath) : Bool :=
  match fsGet fs p with
  | some (.file _) => true
  | _ => false

/-- Embedded Python exceptions raised by `libwgit.py` (or by the standard
library on its behalf). `typeError` is what `os.path.isfile(None)` raises,
`nameError` is what evaluating the unbound identifier
`reposiositoryformatversion` on line 66 raises. -/
inductive PyErr where
  | notGitRepo
  | configMissing
  | nameError
  | notADirectory
  | worktreeNotDir
  | gitdirNotEmpty
  | fileExists
  | assertionError
  | typeError
  | notARepository
  | recursionError
  | malformedObject
  | unknownObjectType
  | headerNoSpace
  | headerNoNul
  | valueError
deriving DecidableEq, Repr

/-- Equality of embedded Python results is decidable. -/
instance {e a : Type} [DecidableEq e] [DecidableEq a] : DecidableEq (Except e a) := fun x y =>
  match x, y with
  | .error e1, .error e2 =>
    if h : e1 = e2 then .isTrue (by rw [h])
    else .isFalse (fun hc => h (by cases hc; rfl))
  | .error _, .ok _ => .isFalse (fun hc => Except.noConfusion hc)
  | .ok _, .error _ => .isFalse (fun hc => Except.noConfusion hc)
  | .ok a1, .ok a2 =>
    if h : a1 = a2 then .isTrue (by rw [h])
    else .isFalse (fun hc => h (by cases hc; rfl))

/-- The directory entries created by `os.makedirs p`: every nonempty prefix of
`p` becomes a directory. -/
def dirEntries (p : FsPath) : FS :=
  p.inits.filterMap (fun q => if q = [] then none else some (q, FsNode.dir))

/-- `os.makedirs`: fails if some nonempty prefix of the path is an existing
regular file, otherwise creates every missing intermediate directory (the
root `[]` always exists and is never a file). -/
def fsMkdirs (fs : FS) (p : FsPath) : Except PyErr FS :=
  if p.inits.any (fun q => decide (q ≠ []) && fsIsFile fs q) then
    .error .fileExists
  else
    .ok (dirEntries p ++ fs)

/-- Write (create or truncate) a regular file, shadowing any previous node. -/
def fsWrite (fs : FS) (p : FsPath) (c : FileContent) : FS :=
  (p, FsNode.file c) :: fs

/-- `os.listdir(p)` is nonempty: some entry lies strictly below `p`. -/
def fsHasChild (fs : FS) (p : FsPath) : Bool :=
  fs.any (fun e => decide (e.1 ≠ p) && p.isPrefixOf e.1)

/-- `GitRepository`: a worktree path and its `.git` control directory
(`gitdir = worktree ++ [".git"]` by construction in `__init__`). -/
structure Repo where
  worktree : FsPath
  gitdir : FsPath
deriving DecidableEq, Repr

/-- `repo_path(repo, *path)`: compute a path under the repo's gitdir. -/
def repo_path (repo : Repo) (path : List String) : FsPath :=
  repo.gitdir ++ path

/-- `repo_dir(repo, *path, mkdir)`: return the joined path if it exists and is
a directory; raise `Not a directory` if it exists and is not; if absent,
create it (with intermediates) and return it when `mkdir`, else return
`None`. -/
def repo_dir (fs : FS) (repo : Repo) (path : List String) (mkdir : Bool) :
    Except PyErr (Option FsPath × FS) :=
  let p := repo_path repo path
  if fsExists fs p then
    if fsIsDir fs p then .ok (some p, fs) else .error .notADirectory
  else if mkdir then
    match fsMkdirs fs p with
    | .error e => .error e
    | .ok fs2 => .ok (some p, fs2)
  else .ok (none, fs)

/-- `repo_file(repo, *path, mkdir)`: ensure the parent directory via
`repo_dir` on all but the last component; return the full path if the parent
resolved, `None` (absent) otherwise. -/
def repo_file (fs : FS) (repo : Repo) (path : List String) (mkdir : Bool) :
    Except PyErr (Option FsPath × FS) :=
  match repo_dir fs repo path.dropLast mkdir with
  | .error e => .error e
  | .ok (some _, fs2) => .ok (some (repo_path repo path), fs2)
  | .ok (none, fs2) => .ok (none, fs2)

/-- `GitRepository.__init__(path, force)`.  With `force = false` it checks the
gitdir is a directory, reads `.git/config` (raising `Configuration file
missing` when absent), and then line 66 evaluates
`int(self.conf.get("core", reposiositoryformatversion))` where
`reposiositoryformatversion` is an unbound bare identifier, so Python raises
`NameError` before any version comparison can happen; this is embedded
faithfully as `.error .nameError`. -/
def gitRepositoryInit (fs : FS) (path : FsPath) (force : Bool) :
    Except PyErr Repo :=
  let repo : Repo := ⟨path, path ++ [".git"]⟩
  if !(force || fsIsDir fs repo.gitdir) then .error .notGitRepo
  else
    match repo_file fs repo ["config"] false with
    | .error e => .error e
    | .ok (cf, _) =>
      let confRead := match cf with
        | some p => fsExists fs p
        | none => false
      if !confRead && !force then .error .configMissing
      else if !force then .error .nameError
      else .ok repo

/-- The default configuration built by `repo_default_config` (note the
source's key spelling `reposiositoryformatversion`). -/
def repo_default_config : List (String × List (String × String)) :=
  [("core", [("reposiositoryformatversion", "0"),
             ("filemode", "false"),
             ("bare", "false")])]

/-- `assert expr` on an optional `repo_dir` result: `AssertionError` when the
result is absent (falsy), otherwise the value. -/
def assertSome : Option FsPath → Except PyErr FsPath
  | some p => .ok p
  | none => .error .assertionError

/-- `open(pathOpt, "w")`: `open(None, ...)` raises `TypeError`. -/
def openForWrite : Option FsPath → Except PyErr FsPath
  | some p => .ok p
  | none => .error .typeError

/-- `repo_create(path)`: construct the forced repository handle, check the
worktree/gitdir preconditions, create `branches`, `objects`, `refs/tags`,
`refs/heads` (asserting each result), and write `descriotion` (sic), `HEAD`
and `config`. -/
def repo_create (fs : FS) (path : FsPath) : Except PyErr (Repo × FS) :=
  match gitRepositoryInit fs path true with
  | .error e => .error e
  | .ok repo =>
    let checked : Except PyErr FS :=
      if fsExists fs repo.worktree then
        if !fsIsDir fs repo.worktree then .error .worktreeNotDir
        else if fsExists fs repo.gitdir && fsHasChild fs repo.gitdir then
          .error .gitdirNotEmpty
        else .ok fs
      else
        fsMkdirs fs repo.worktree
    match checked with
    | .error e => .error e
    | .ok fs1 =>
      match repo_dir fs1 repo ["branches"] true with
      | .error e => .error e
      | .ok (d1, fs2) =>
        match assertSome d1 with
        | .error e => .error e
        | .ok _ =>
          match repo_dir fs2 repo ["objects"] true with
          | .error e => .error e
          | .ok (d2, fs3) =>
            match assertSome d2 with
            | .error e => .error e
            | .ok _ =>
              match repo_dir fs3 repo ["refs", "tags"] true with
              | .error e => .error e
              | .ok (d3, fs4) =>
                match assertSome d3 with
                | .error e => .error e
                | .ok _ =>
                  match repo_dir fs4 repo ["refs", "heads"] true with
                  | .error e => .error e
                  | .ok (d4, fs5) =>
                    match assertSome d4 with
                    | .error e => .error e
                    | .ok _ =>
                      match repo_file fs5 repo ["descriotion"] false with
                      | .error e => .error e
                      | .ok (dp, fs6) =>
                        match openForWrite dp with
                        | .error e => .error e
                        | .ok p =>
                          let fs7 := fsWrite fs6 p (.text "Unnamed repository; edit this file 'description' to name the repository.\n")
                          match repo_file fs7 repo ["HEAD"] false with
                          | .error e => .error e
                          | .ok (hp, fs8) =>
                            match openForWrite hp with
                            | .error e => .error e
                            | .ok ph =>
                              let fs9 := fsWrite fs8 ph (.text "ref: refs/heads/master\n")
                              match repo_file fs9 repo ["config"] false with
                              | .error e => .error e
                              | .ok (cp, fs10) =>
                                match openForWrite cp with
                                | .error e => .error e
                                | .ok pc =>
                                  .ok (repo, fsWrite fs10 pc (.ini repo_default_config))

/-- `repo_find(path, required)`: on canonical paths, test whether
`path/.git` is a directory; on a hit construct `GitRepository(path)`
(with `force = False`); otherwise recurse into the parent, the parent of the
root being the root itself. -/
def repo_find (fs : FS) (path : FsPath) (required : Bool) :
    Except PyErr (Option Repo) :=
  if fsIsDir fs (path ++ [".git"]) then
    match gitRepositoryInit fs path false with
    | .error e => .error e
    | .ok repo => .ok (some repo)
  else
    if path.dropLast = path then
      if required then .error .notARepository else .ok none
    else
      repo_find fs path.dropLast required
termination_by path.length
decreasing_by
  cases path with
  | nil => simp_all
  | cons a as => simp [List.length_dropLast]

/-- Fuel-bounded variant of `repo_find`, used to state that the recursion
depth of `repo_find` is bounded by the length of the starting path. -/
def repo_find_fuel (fs : FS) : Nat → FsPath → Bool → Except PyErr (Option Repo)
  | 0, _, _ => .error .recursionError
  | n + 1, path, required =>
    if fsIsDir fs (path ++ [".git"]) then
      match gitRepositoryInit fs path false with
      | .error e => .error e
      | .ok repo => .ok (some repo)
    else
      if path.dropLast = path then
        if required then .error .notARepository else .ok none
      else
        repo_find_fuel fs n path.dropLast required

-- --- OBJECT STORE: object_read --- --

/-- The bytes of an ASCII string (Python byte-string literals). -/
def asciiBytes (s : String) : List Nat :=
  s.data.map Char.toNat

/-- An ASCII decimal digit byte. -/
def isDigitByte (b : Nat) : Bool :=
  48 ≤ b && b ≤ 57

/-- Value of a string of ASCII decimal digits. -/
def digitsVal (bs : List Nat) : Nat :=
  bs.foldl (fun a b => a * 10 + (b - 48)) 0

/-- Python `int(slice.decode("ascii"))` on the size field: leading/trailing
ASCII spaces are stripped (the slice `raw[x:y]` starts with the space at
position `x`), then a nonempty all-digit string parses to its value and
anything else raises `ValueError`. -/
def pyInt (bs : List Nat) : Option Nat :=
  let core := ((bs.dropWhile (· = 32)).reverse.dropWhile (· = 32)).reverse
  if core ≠ [] && core.all isDigitByte then some (digitsVal core) else none

/-- The four object type keywords dispatched on by `object_read`. -/
inductive ObjKind where
  | blob
  | tree
  | commit
  | tag
deriving DecidableEq, Repr

/-- The embedding of `bytes.find`: the index of the first occurrence of a
byte, `none` when absent. -/
def bfind (bs : List Nat) (t : Nat) : Option Nat :=
  match bs with
  | [] => none
  | b :: rest => if b = t then some 0 else (bfind rest t).map (· + 1)

/-- The body of `object_read` after `zlib.decompress`: find the first space
(`x`), the first NUL from `x` on (`y`), parse `int(raw[x:y])`, raise
`Malformed object` when the parsed size differs from `len(raw)-y-1`, then
dispatch on the keyword `raw[0:x]`, raising `Unknown type` for any keyword
other than `commit`/`tree`/`tag`/`blob`.  The source's `GitCommit`, `GitTree`,
`GitTag` and `GitBlob` constructors are not present in the source file, so the
result is the selected constructor's kind paired with the bytes `raw[y+1:]`
handed to it.  The source's negative-index arithmetic when a header byte is
absent is embedded as a header parse error (no claim concerns that case). -/
def object_read_raw (raw : List Nat) : Except PyErr (ObjKind × List Nat) :=
  match bfind raw 32 with
  | none => .error .headerNoSpace
  | some x =>
    let fmt := raw.take x
    match bfind (raw.drop x) 0 with
    | none => .error .headerNoNul
    | some yoff =>
      let y := x + yoff
      match pyInt ((raw.drop x).take yoff) with
      | none => .error .valueError
      | some size =>
        if size ≠ raw.length - y - 1 then .error .malformedObject
        else if fmt = asciiBytes "commit" then .ok (.commit, raw.drop (y + 1))
        else if fmt = asciiBytes "tree" then .ok (.tree, raw.drop (y + 1))
        else if fmt = asciiBytes "tag" then .ok (.tag, raw.drop (y + 1))
        else if fmt = asciiBytes "blob" then .ok (.blob, raw.drop (y + 1))
        else .error .unknownObjectType

/-- `zlib.decompress`: zlib is an external invertible codec, so the embedded
filesystem stores each object file by its decompressed image and
decompression is the identity on that image. -/
def zlib_decompress (bs : List Nat) : List Nat :=
  bs

/-- Raw bytes of a stored file (object files are stored as bytes; the INI
case belongs to the external `configparser` collaborator and never holds an
object file). -/
def fileBytes : FileContent → List Nat
  | .bytes bs => bs
  | .text s => asciiBytes s
  | .ini _ => []

/-- `sha[0:2]`: the two-character shard directory name. -/
def shaShard1 (sha : String) : String :=
  String.mk (sha.data.take 2)

/-- `sha[2:]`: the remainder of the identifier, the file name. -/
def shaShard2 (sha : String) : String :=
  String.mk (sha.data.drop 2)

/-- `object_read(repo, sha)`: locate the object file via
`repo_file(repo, "objects", sha[0:2], sha[2:])`.  When `repo_file` returns
`None` (the shard directory does not exist), the source immediately calls
`os.path.isfile(None)`, which raises `TypeError`.  When the path exists but
is not a regular file, return `None`; otherwise decompress and parse. -/
def object_read (fs : FS) (repo : Repo) (sha : String) :
    Except PyErr (Option (ObjKind × List Nat)) :=
  match repo_file fs repo ["objects", shaShard1 sha, shaShard2 sha] false with
  | .error e => .error e
  | .ok (pathOpt, _) =>
    match pathOpt with
    | none => .error .typeError
    | some p =>
      if !fsIsFile fs p then .ok none
      else
        match fsGet fs p with
        | some (.file c) =>
          match object_read_raw (zlib_decompress (fileBytes c)) with
          | .error e => .error e
          | .ok r => .ok (some r)
        | _ => .ok none

-- --- OBJECT CODEC (the typed variants are absent from the source file) --- --

/-- Modelled from the spec: a Tree Entry, a `(mode, name, identifier)` triple
with the identifier as 20 raw bytes; the classes `GitTree`/`GitTreeLeaf` are
not present in the source file. -/
structure TreeEntry where
  mode : List Nat
  name : List Nat
  sha : List Nat
deriving DecidableEq, Repr

/-- Modelled from the spec: the four typed object payloads (the classes
`GitBlob`, `GitTree`, `GitCommit`, `GitTag` are not present in the source
file): a blob is an opaque byte payload, a tree an ordered entry sequence,
commit and tag an ordered key-value header block plus a free-text message. -/
inductive GitObj where
  | blob (data : List Nat)
  | tree (entries : List TreeEntry)
  | commit (fields : List (List Nat × List Nat)) (message : List Nat)
  | tag (fields : List (List Nat × List Nat)) (message : List Nat)
deriving DecidableEq, Repr

/-- The variant tag of an object, as dispatched on by `object_read`. -/
def kindOf : GitObj → ObjKind
  | .blob _ => .blob
  | .tree _ => .tree
  | .commit _ _ => .commit
  | .tag _ _ => .tag

/-- Modelled from the spec: the continuation rule of the header encoding —
each embedded newline in a value is followed by a single leading space on the
continuation line. -/
def encVal : List Nat → List Nat
  | [] => []
  | b :: bs => if b = 10 then 10 :: 32 :: encVal bs else b :: encVal bs

/-- Modelled from the spec: `encode` for commit/tag — an ordered sequence of
`key SP value LF` header lines (values escaped by the continuation rule)
followed by a blank line and the free-text message. -/
def kvlmEncode (fields : List (List Nat × List Nat)) (message : List Nat) :
    List Nat :=
  (fields.map (fun kv => kv.1 ++ 32 :: (encVal kv.2 ++ [10]))).flatten
    ++ 10 :: message

/-- Modelled from the spec: `encode` for one tree entry,
`mode SP name NUL sha20`. -/
def encodeTreeEntry (e : TreeEntry) : List Nat :=
  e.mode ++ 32 :: (e.name ++ 0 :: e.sha)

/-- Modelled from the spec: `encode(object)` — blobs verbatim, trees as the
concatenation of their encoded entries in the order supplied, commit/tag via
the header-block encoding. -/
def encodeObj : GitObj → List Nat
  | .blob d => d
  | .tree es => (es.map encodeTreeEntry).flatten
  | .commit fm m => kvlmEncode fm m
  | .tag fm m => kvlmEncode fm m

/-- Split a byte string at its first space: `some (before, after)`, or `none`
(malformed) when there is no space. -/
def splitAtSpace : List Nat → Option (List Nat × List Nat)
  | [] => none
  | b :: bs =>
    if b = 32 then some ([], bs)
    else
      match splitAtSpace bs with
      | none => none
      | some (k, r) => some (b :: k, r)

/-- Split a byte string at its first NUL: `some (before, after)`, or `none`
(malformed) when there is no NUL. -/
def splitAtNul : List Nat → Option (List Nat × List Nat)
  | [] => none
  | b :: bs =>
    if b = 0 then some ([], bs)
    else
      match splitAtNul bs with
      | none => none
      | some (k, r) => some (b :: k, r)

/-- Take exactly `n` leading bytes, failing (malformed/truncated) when fewer
remain. -/
def takeExact (n : Nat) (l : List Nat) : Option (List Nat × List Nat) :=
  if n ≤ l.length then some (l.take n, l.drop n) else none

theorem splitAtSpace_length :
    ∀ {l k r : List Nat}, splitAtSpace l = some (k, r) → r.length < l.length
  | [], _, _, h => by simp [splitAtSpace] at h
  | b :: bs, k, r, h => by
    simp only [splitAtSpace] at h
    by_cases hb : b = 32
    · rw [if_pos hb] at h
      simp at h
      obtain ⟨hk, hr⟩ := h
      subst hr
      simp
    · rw [if_neg hb] at h
      cases hs : splitAtSpace bs with
      | none => rw [hs] at h; simp at h
      | some p =>
        obtain ⟨k2, r2⟩ := p
        rw [hs] at h
        simp at h
        obtain ⟨hk, hr⟩ := h
        subst hr
        have := splitAtSpace_length hs
        simp only [List.length_cons]
        omega

theorem splitAtNul_length :
    ∀ {l k r : List Nat}, splitAtNul l = some (k, r) → r.length < l.length
  | [], _, _, h => by simp [splitAtNul] at h
  | b :: bs, k, r, h => by
    simp only [splitAtNul] at h
    by_cases hb : b = 0
    · rw [if_pos hb] at h
      simp at h
      obtain ⟨hk, hr⟩ := h
      subst hr
      simp
    · rw [if_neg hb] at h
      cases hs : splitAtNul bs with
      | none => rw [hs] at h; simp at h
      | some p =>
        obtain ⟨k2, r2⟩ := p
        rw [hs] at h
        simp at h
        obtain ⟨hk, hr⟩ := h
        subst hr
        have := splitAtNul_length hs
        simp only [List.length_cons]
        omega

theorem takeExact_length {n : Nat} {l a r : List Nat}
    (h : takeExact n l = some (a, r)) : r.length ≤ l.length := by
  simp only [takeExact] at h
  by_cases hn : n ≤ l.length
  · simp [hn] at h
    rw [← h.2]
    simp
  · simp [hn] at h

/-- Modelled from the spec: the Tree Decoder — entries parsed back to back,
mode up to the next space, name up to the next NUL, identifier the following
20 raw bytes; fails (malformed) when the payload ends before a complete entry
is consumed. -/
def treeDecode (d : List Nat) : Option (List TreeEntry) :=
  match d with
  | [] => some []
  | b :: bs =>
    match h1 : splitAtSpace (b :: bs) with
    | none => none
    | some (mode, r1) =>
      match h2 : splitAtNul r1 with
      | none => none
      | some (name, r2) =>
        match h3 : takeExact 20 r2 with
        | none => none
        | some (sha, r3) =>
          match treeDecode r3 with
          | none => none
          | some es => some (⟨mode, name, sha⟩ :: es)
termination_by d.length
decreasing_by
  have l1 := splitAtSpace_length h1
  have l2 := splitAtNul_length h2
  have l3 := takeExact_length h3
  simp at l1 ⊢
  omega

/-- Modelled from the spec: `decode` of one header value — bytes up to the
first LF not followed by a space, each `LF SP` continuation collapsed back to
`LF`; fails (malformed) when no terminating LF is found. -/
def decVal : List Nat → Option (List Nat × List Nat)
  | [] => none
  | [b] => if b = 10 then some ([], []) else none
  | b :: c :: bs =>
    if b = 10 then
      if c = 32 then
        match decVal bs with
        | none => none
        | some (v, r) => some (10 :: v, r)
      else some ([], c :: bs)
    else
      match decVal (c :: bs) with
      | none => none
      | some (v, r) => some (b :: v, r)

theorem decVal_length :
    ∀ {l v r : List Nat}, decVal l = some (v, r) → r.length < l.length
  | [], _, _, h => by simp [decVal] at h
  | [b], v, r, h => by
    simp only [decVal] at h
    by_cases hb : b = 10
    · rw [if_pos hb] at h
      simp at h
      obtain ⟨hv, hr⟩ := h
      subst hr
      simp
    · rw [if_neg hb] at h
      simp at h
  | b :: c :: bs, v, r, h => by
    simp only [decVal] at h
    by_cases hb : b = 10
    · rw [if_pos hb] at h
      by_cases hc : c = 32
      · rw [if_pos hc] at h
        cases hs : decVal bs with
        | none => rw [hs] at h; simp at h
        | some p =>
          obtain ⟨v2, r2⟩ := p
          rw [hs] at h
          simp at h
          obtain ⟨hv, hr⟩ := h
          subst hr
          have := decVal_length hs
          simp only [List.length_cons]
          omega
      · rw [if_neg hc] at h
        simp at h
        obtain ⟨hv, hr⟩ := h
        subst hr
        simp
    · rw [if_neg hb] at h
      cases hs : decVal (c :: bs) with
      | none => rw [hs] at h; simp at h
      | some p =>
        obtain ⟨v2, r2⟩ := p
        rw [hs] at h
        simp at h
        obtain ⟨hv, hr⟩ := h
        subst hr
        have := decVal_length hs
        simp only [List.length_cons] at *
        omega

/-- Modelled from the spec: `decode` for commit/tag — parse `key SP value LF`
header lines (with the continuation rule) up to the blank line, the rest
being the free-text message; fails (malformed) when a header line is not a
well-formed key/value pair or no blank line is found. -/
def kvlmDecode (d : List Nat) :
    Option (List (List Nat × List Nat) × List Nat) :=
  match d with
  | [] => none
  | b :: bs =>
    if b = 10 then some ([], bs)
    else
      match h1 : splitAtSpace (b :: bs) with
      | none => none
      | some (k, r1) =>
        match h2 : decVal r1 with
        | none => none
        | some (v, r2) =>
          match kvlmDecode r2 with
          | none => none
          | some (fm, msg) => some ((k, v) :: fm, msg)
termination_by d.length
decreasing_by
  have l1 := splitAtSpace_length h1
  have l2 := decVal_length h2
  simp at l1 ⊢
  omega

/-- Modelled from the spec: `decode(kind, payload)` — blobs verbatim, trees
via the Tree Decoder, commit/tag via the header-block decoder. -/
def decodeObj : ObjKind → List Nat → Option GitObj
  | .blob, d => some (.blob d)
  | .tree, d =>
    match treeDecode d with
    | none => none
    | some es => some (.tree es)
  | .commit, d =>
    match kvlmDecode d with
    | none => none
    | some (fm, m) => some (.commit fm m)
  | .tag, d =>
    match kvlmDecode d with
    | none => none
    | some (fm, m) => some (.tag fm m)

/-- A valid header field, per the spec's data model: a nonempty key
containing neither a space nor a newline; the value is arbitrary. -/
def validField (kv : List Nat × List Nat) : Bool :=
  decide (kv.1 ≠ []) && decide ((32 : Nat) ∉ kv.1) && decide ((10 : Nat) ∉ kv.1)

/-- A valid tree entry, per the spec's data model: the mode a nonempty short
ASCII digit string, the name a nonempty path component without separator or
NUL, the identifier exactly 20 raw bytes. -/
def validEntry (e : TreeEntry) : Bool :=
  decide (e.mode ≠ []) && e.mode.all isDigitByte &&
    decide (e.name ≠ []) && decide ((0 : Nat) ∉ e.name) &&
    decide ((47 : Nat) ∉ e.name) && decide (e.sha.length = 20)

/-- A valid object, per the spec's data model. -/
def validObj : GitObj → Bool
  | .blob _ => true
  | .tree es => es.all validEntry
  | .commit fm _ => fm.all validField
  | .tag fm _ => fm.all validField

-- --- ROUND-TRIP LEMMAS FOR THE CODEC --- --

theorem splitAtSpace_exact {k : List Nat} (rest : List Nat) (h : 32 ∉ k) :
    splitAtSpace (k ++ 32 :: rest) = some (k, rest) := by
  induction k with
  | nil => simp [splitAtSpace]
  | cons b bs ih =>
    have hb : b ≠ 32 := fun hc => h (by simp [hc])
    have hm : 32 ∉ bs := fun hm => h (List.mem_cons_of_mem b hm)
    simp only [List.cons_append, splitAtSpace, if_neg hb, List.append_eq]
    rw [ih hm]

theorem splitAtNul_exact {k : List Nat} (rest : List Nat) (h : 0 ∉ k) :
    splitAtNul (k ++ 0 :: rest) = some (k, rest) := by
  induction k with
  | nil => simp [splitAtNul]
  | cons b bs ih =>
    have hb : b ≠ 0 := fun hc => h (by simp [hc])
    have hm : 0 ∉ bs := fun hm => h (List.mem_cons_of_mem b hm)
    simp only [List.cons_append, splitAtNul, if_neg hb, List.append_eq]
    rw [ih hm]

theorem takeExact_app (n : Nat) (a r : List Nat) (h : a.length = n) :
    takeExact n (a ++ r) = some (a, r) := by
  subst h
  simp [takeExact, List.take_left, List.drop_left]

theorem digits_no_space {mode : List Nat} (h : mode.all isDigitByte = true) :
    32 ∉ mode := by
  intro hm
  have := List.all_eq_true.mp h _ hm
  simp [isDigitByte] at this

theorem decVal_encVal :
    ∀ (v rest : List Nat), rest.head? ≠ some 32 →
      decVal (encVal v ++ 10 :: rest) = some (v, rest)
  | [], rest, h => by
    cases rest with
    | nil => simp [encVal, decVal]
    | cons c cs =>
      have hc : c ≠ 32 := by simpa using h
      simp [encVal, decVal, hc]
  | b :: v2, rest, h => by
    by_cases hb : b = 10
    · subst hb
      have hstep : encVal (10 :: v2) ++ 10 :: rest
          = 10 :: 32 :: (encVal v2 ++ 10 :: rest) := by
        simp [encVal]
      rw [hstep]
      have hrec := decVal_encVal v2 rest h
      simp [decVal, hrec]
    · have hstep : encVal (b :: v2) ++ 10 :: rest
          = b :: (encVal v2 ++ 10 :: rest) := by
        simp [encVal, hb]
      rw [hstep]
      cases he : encVal v2 ++ 10 :: rest with
      | nil => exact absurd he (by simp)
      | cons c cs =>
        have hrec := decVal_encVal v2 rest h
        rw [he] at hrec
        simp [decVal, if_neg hb, hrec]

theorem kvlmEncode_cons (k v : List Nat)
    (fm : List (List Nat × List Nat)) (msg : List Nat) :
    kvlmEncode ((k, v) :: fm) msg
      = k ++ 32 :: (encVal v ++ 10 :: kvlmEncode fm msg) := by
  simp [kvlmEncode, List.append_assoc]

theorem kvlmEncode_head (fm : List (List Nat × List Nat)) (msg : List Nat)
    (h : fm.all validField = true) : (kvlmEncode fm msg).head? ≠ some 32 := by
  cases fm with
  | nil => simp [kvlmEncode]
  | cons kv fm2 =>
    obtain ⟨k, v⟩ := kv
    have hf : validField (k, v) = true :=
      List.all_eq_true.mp h (k, v) (by simp)
    simp only [validField, Bool.and_eq_true, decide_eq_true_eq] at hf
    obtain ⟨⟨hne, hsp⟩, hnl⟩ := hf
    rw [kvlmEncode_cons]
    cases k with
    | nil => exact absurd rfl hne
    | cons kh kt =>
      have : kh ≠ 32 := fun hc => hsp (by simp [hc])
      simp [this]

theorem kvlmDecode_encode :
    ∀ (fm : List (List Nat × List Nat)) (msg : List Nat),
      fm.all validField = true →
      kvlmDecode (kvlmEncode fm msg) = some (fm, msg)
  | [], msg, _ => by simp [kvlmEncode, kvlmDecode]
  | (k, v) :: fm2, msg, h => by
    have hall : validField (k, v) = true ∧ fm2.all validField = true := by
      simpa using h
    have hf := hall.1
    simp only [validField, Bool.and_eq_true, decide_eq_true_eq] at hf
    obtain ⟨⟨hne, hsp⟩, hnl⟩ := hf
    rw [kvlmEncode_cons]
    cases k with
    | nil => exact absurd rfl hne
    | cons kh kt =>
      have hkh : kh ≠ 10 := fun hc => hnl (by simp [hc])
      have e1 := splitAtSpace_exact (k := kh :: kt)
        (encVal v ++ 10 :: kvlmEncode fm2 msg) hsp
      have e2 := decVal_encVal v (kvlmEncode fm2 msg)
        (kvlmEncode_head fm2 msg hall.2)
      have e3 := kvlmDecode_encode fm2 msg hall.2
      simp only [List.cons_append] at e1 ⊢
      simp only [kvlmDecode, if_neg hkh]
      split
      next heq =>
        rw [e1] at heq
        simp at heq
      next k2 r1 heq =>
        rw [e1] at heq
        simp at heq
        obtain ⟨hk2, hr1⟩ := heq
        subst hk2
        subst hr1
        split
        next heq2 =>
          rw [e2] at heq2
          simp at heq2
        next v2 r2 heq2 =>
          rw [e2] at heq2
          simp at heq2
          obtain ⟨hv2, hr2⟩ := heq2
          subst hv2
          subst hr2
          rw [e3]

theorem treeDecode_encode :
    ∀ (es : List TreeEntry), es.all validEntry = true →
      treeDecode ((es.map encodeTreeEntry).flatten) = some es
  | [], _ => by simp [treeDecode]
  | e :: es2, h => by
    obtain ⟨mode, name, sha⟩ := e
    have hall : validEntry ⟨mode, name, sha⟩ = true ∧ es2.all validEntry = true := by
      simpa using h
    have he := hall.1
    simp only [validEntry, Bool.and_eq_true, decide_eq_true_eq] at he
    obtain ⟨⟨⟨⟨⟨hmode, hdig⟩, hname⟩, hnul⟩, hsep⟩, hsha⟩ := he
    have hflat : ((⟨mode, name, sha⟩ :: es2).map encodeTreeEntry).flatten
        = mode ++ 32 :: (name ++ 0 ::
            (sha ++ (es2.map encodeTreeEntry).flatten)) := by
      simp [encodeTreeEntry, List.append_assoc]
    rw [hflat]
    have e2 := splitAtNul_exact (sha ++ (es2.map encodeTreeEntry).flatten) hnul
    have e3 := takeExact_app 20 sha ((es2.map encodeTreeEntry).flatten) hsha
    have e4 := treeDecode_encode es2 hall.2
    cases mode with
    | nil => exact absurd rfl hmode
    | cons mh mt =>
      have e1 := splitAtSpace_exact (k := mh :: mt)
        (name ++ 0 :: (sha ++ (es2.map encodeTreeEntry).flatten))
        (digits_no_space hdig)
      simp only [List.cons_append] at e1 ⊢
      simp only [treeDecode]
      split
      next heq =>
        rw [e1] at heq
        simp at heq
      next m2 r1 heq =>
        rw [e1] at heq
        simp at heq
        obtain ⟨hm2, hr1⟩ := heq
        subst hm2
        subst hr1
        split
        next heq2 =>
          rw [e2] at heq2
          simp at heq2
        next n2 r2 heq2 =>
          rw [e2] at heq2
          simp at heq2
          obtain ⟨hn2, hr2⟩ := heq2
          subst hn2
          subst hr2
          split
          next heq3 =>
            rw [e3] at heq3
            simp at heq3
          next s2 r3 heq3 =>
            rw [e3] at heq3
            simp at heq3
            obtain ⟨hs2, hr3⟩ := heq3
            subst hs2
            subst hr3
            rw [e4]

-- --- HEADER PARSE LEMMAS FOR object_read --- --

theorem bfind_exact (t : Nat) :
    ∀ (l1 l2 : List Nat), (∀ b ∈ l1, b ≠ t) →
      bfind (l1 ++ t :: l2) t = some l1.length
  | [], l2, _ => by simp [bfind]
  | b :: bs, l2, h => by
    have hb : b ≠ t := h b (by simp)
    have ih := bfind_exact t bs l2 (fun x hx => h x (by simp [hx]))
    simp [bfind, hb, ih]

theorem dropWhile_ne_space {l : List Nat} (h : ∀ b ∈ l, b ≠ 32) :
    l.dropWhile (· = 32) = l := by
  cases l with
  | nil => rfl
  | cons a as => simp [List.dropWhile_cons, h a (by simp)]

theorem digit_facts {b : Nat} (h : isDigitByte b = true) :
    b ≠ 0 ∧ b ≠ 32 ∧ b ≠ 10 := by
  simp [isDigitByte] at h
  omega

theorem pyInt_space_digits {sb : List Nat} (hsb : sb ≠ [])
    (hdig : ∀ b ∈ sb, isDigitByte b = true) :
    pyInt (32 :: sb) = some (digitsVal sb) := by
  have hne : ∀ b ∈ sb, b ≠ 32 := fun b hb => (digit_facts (hdig b hb)).2.1
  have hner : ∀ b ∈ sb.reverse, b ≠ 32 := by
    intro b hb
    exact hne b (List.mem_reverse.mp hb)
  unfold pyInt
  have h1 : (32 :: sb).dropWhile (· = 32) = sb := by
    simp only [List.dropWhile_cons]
    simp [dropWhile_ne_space hne]
  rw [h1, dropWhile_ne_space hner, List.reverse_reverse]
  simp [hsb, List.all_eq_true]
  exact hdig

theorem object_read_raw_eq (fmt sb payload : List Nat)
    (hfmt : ∀ b ∈ fmt, b ≠ 32) (hsb : sb ≠ [])
    (hdig : ∀ b ∈ sb, isDigitByte b = true) :
    object_read_raw (fmt ++ 32 :: (sb ++ 0 :: payload)) =
      (if digitsVal sb ≠ payload.length then .error .malformedObject
       else if fmt = asciiBytes "commit" then .ok (.commit, payload)
       else if fmt = asciiBytes "tree" then .ok (.tree, payload)
       else if fmt = asciiBytes "tag" then .ok (.tag, payload)
       else if fmt = asciiBytes "blob" then .ok (.blob, payload)
       else .error .unknownObjectType) := by
  have e1 : bfind (fmt ++ 32 :: (sb ++ 0 :: payload)) 32 = some fmt.length :=
    bfind_exact 32 fmt _ hfmt
  have edrop : (fmt ++ 32 :: (sb ++ 0 :: payload)).drop fmt.length
      = 32 :: (sb ++ 0 :: payload) := List.drop_left fmt _
  have etake : (fmt ++ 32 :: (sb ++ 0 :: payload)).take fmt.length = fmt :=
    List.take_left fmt _
  have hnul : ∀ b ∈ 32 :: sb, b ≠ 0 := by
    intro b hb
    cases List.mem_cons.mp hb with
    | inl h => simp [h]
    | inr h => exact (digit_facts (hdig b h)).1
  have e2 : bfind (32 :: (sb ++ 0 :: payload)) 0 = some (sb.length + 1) := by
    have := bfind_exact 0 (32 :: sb) payload hnul
    simpa using this
  have etake2 : (32 :: (sb ++ 0 :: payload)).take (sb.length + 1) = 32 :: sb := by
    simp [List.take_left]
  have e3 : pyInt (32 :: sb) = some (digitsVal sb) := pyInt_space_digits hsb hdig
  have harith : (fmt ++ 32 :: (sb ++ 0 :: payload)).length
      - (fmt.length + (sb.length + 1)) - 1 = payload.length := by
    simp [List.length_append]
    omega
  have hsplit : fmt ++ 32 :: (sb ++ 0 :: payload)
      = (fmt ++ 32 :: (sb ++ [0])) ++ payload := by
    simp [List.append_assoc]
  have hlen : (fmt ++ 32 :: (sb ++ [0])).length
      = fmt.length + (sb.length + 1) + 1 := by
    simp [List.length_append]
    omega
  have hdrop2 : (fmt ++ 32 :: (sb ++ 0 :: payload)).drop
      (fmt.length + (sb.length + 1) + 1) = payload := by
    rw [hsplit, ← hlen, List.drop_left]
  simp only [object_read_raw, e1, edrop, etake, e2, etake2, e3, harith, hdrop2]

-- --- CLAIM THEOREMS: OBJECT READ HEADER (C2, C8) --- --

/-- C2: for a stored object file whose decompressed image is a well-formed
header — a keyword without spaces, a space, a nonempty decimal size field,
a NUL — followed by the payload, `object_read` fails with `Malformed object`
exactly when the parsed decimal size differs from the number of bytes
following the NUL. -/
theorem object_read_size_check (fmt sb payload : List Nat)
    (hfmt : ∀ b ∈ fmt, b ≠ 32) (hsb : sb ≠ [])
    (hdig : ∀ b ∈ sb, isDigitByte b = true) :
    (object_read_raw (fmt ++ 32 :: (sb ++ 0 :: payload))
        = .error .malformedObject
      ↔ digitsVal sb ≠ payload.length) := by
  rw [object_read_raw_eq fmt sb payload hfmt hsb hdig]
  by_cases h : digitsVal sb = payload.length
  · simp only [h, ne_eq, not_true_eq_false, if_false]
    simp [h]
    split_ifs <;> simp
  · simp [h]

/-- Witness for C2 at the header `blob 3` with a three-byte payload. -/
theorem object_read_size_check_witness :
    (∀ b ∈ [98, 108, 111, 98], b ≠ 32) ∧ ([51] : List Nat) ≠ [] ∧
    (∀ b ∈ [51], isDigitByte b = true) ∧
    (object_read_raw ([98, 108, 111, 98] ++ 32 :: ([51] ++ 0 :: [97, 98, 99]))
        = .error .malformedObject
      ↔ digitsVal [51] ≠ ([97, 98, 99] : List Nat).length) :=
  ⟨by decide, by decide, by decide,
    object_read_size_check [98, 108, 111, 98] [51] [97, 98, 99]
      (by decide) (by decide) (by decide)⟩

/-- C8: on a well-formed header whose declared size matches the payload,
`object_read` dispatches the four keywords `commit`, `tree`, `tag`, `blob` to
the corresponding variant and fails with `Unknown type` on any other
keyword. -/
theorem object_read_dispatch (fmt sb payload : List Nat)
    (hfmt : ∀ b ∈ fmt, b ≠ 32) (hsb : sb ≠ [])
    (hdig : ∀ b ∈ sb, isDigitByte b = true)
    (hsize : digitsVal sb = payload.length) :
    object_read_raw (fmt ++ 32 :: (sb ++ 0 :: payload)) =
      (if fmt = asciiBytes "commit" then .ok (.commit, payload)
       else if fmt = asciiBytes "tree" then .ok (.tree, payload)
       else if fmt = asciiBytes "tag" then .ok (.tag, payload)
       else if fmt = asciiBytes "blob" then .ok (.blob, payload)
       else .error .unknownObjectType) := by
  rw [object_read_raw_eq fmt sb payload hfmt hsb hdig]
  simp [hsize]

/-- Witness for C8: the unknown keyword `wizard` with declared size 0 is
rejected with `Unknown type`. -/
theorem object_read_dispatch_witness :
    object_read_raw ([119, 105, 122, 97, 114, 100] ++ 32 :: ([48] ++ 0 :: []))
      = .error .unknownObjectType :=
  (object_read_dispatch [119, 105, 122, 97, 114, 100] [48] []
    (by decide) (by decide) (by decide) (by decide)).trans (by decide)

-- --- CLAIM THEOREM: CODEC ROUND TRIP (C9) --- --

/-- C9: for every valid object of any of the four variants, decoding the
canonical byte encoding produced by the codec yields the original object. -/
theorem decode_encode_roundtrip (o : GitObj) (h : validObj o = true) :
    decodeObj (kindOf o) (encodeObj o) = some o := by
  cases o with
  | blob d => simp [decodeObj, kindOf, encodeObj]
  | tree es =>
    have hr := treeDecode_encode es (by simpa [validObj] using h)
    simp [decodeObj, kindOf, encodeObj, hr]
  | commit fm m =>
    have hr := kvlmDecode_encode fm m (by simpa [validObj] using h)
    simp [decodeObj, kindOf, encodeObj, hr]
  | tag fm m =>
    have hr := kvlmDecode_encode fm m (by simpa [validObj] using h)
    simp [decodeObj, kindOf, encodeObj, hr]

/-- Witness for C9 at a concrete commit object whose header value spans two
lines (exercising the continuation rule). -/
theorem decode_encode_roundtrip_witness :
    validObj (GitObj.commit [([116, 114, 101, 101], [97, 10, 98])]
      [109, 115, 103]) = true ∧
    decodeObj
        (kindOf (GitObj.commit [([116, 114, 101, 101], [97, 10, 98])]
          [109, 115, 103]))
        (encodeObj (GitObj.commit [([116, 114, 101, 101], [97, 10, 98])]
          [109, 115, 103]))
      = some (GitObj.commit [([116, 114, 101, 101], [97, 10, 98])]
          [109, 115, 103]) :=
  ⟨by decide, decode_encode_roundtrip _ (by decide)⟩

-- --- CLAIM THEOREMS: REPOSITORY LOCATOR (C5, C6) --- --

theorem repo_find_unfold (fs : FS) (p : FsPath) (req : Bool) :
    repo_find fs p req =
      if fsIsDir fs (p ++ [".git"]) then
        match gitRepositoryInit fs p false with
        | .error e => .error e
        | .ok repo => .ok (some repo)
      else
        if p.dropLast = p then
          if req then .error .notARepository else .ok none
        else
          repo_find fs p.dropLast req := by
  rw [repo_find]

theorem dropLast_eq_self_iff (p : FsPath) : p.dropLast = p ↔ p = [] := by
  constructor
  · intro h
    cases p with
    | nil => rfl
    | cons a as =>
      have := congrArg List.length h
      simp [List.length_dropLast] at this
  · intro h
    subst h
    rfl

/-- C6: the recursion depth of `repo_find` is bounded by the length of the
(canonical) starting path — the fuel-bounded walk with any fuel exceeding the
path length never exhausts its fuel and agrees with `repo_find` — and the
loop-termination test `parent = path` holds exactly at the filesystem
root. -/
theorem repo_find_terminates (fs : FS) (req : Bool) :
    ∀ (n : Nat) (p : FsPath), p.length < n →
      repo_find_fuel fs n p req = repo_find fs p req
        ∧ (p.dropLast = p ↔ p = []) := by
  intro n
  induction n with
  | zero => intro p h; omega
  | succ n ih =>
    intro p h
    refine ⟨?_, dropLast_eq_self_iff p⟩
    rw [repo_find_unfold]
    simp only [repo_find_fuel]
    by_cases h1 : fsIsDir fs (p ++ [".git"]) = true
    · simp [h1]
    · simp only [Bool.not_eq_true] at h1
      by_cases h2 : p.dropLast = p
      · simp [h1, h2]
      · have hne : p ≠ [] := fun hc => h2 (by rw [hc]; rfl)
        have hlt : p.dropLast.length < n := by
          have := List.length_dropLast p
          cases p with
          | nil => exact absurd rfl hne
          | cons a as =>
            simp [List.length_dropLast] at *
            omega
        have h1f : ¬(fsIsDir fs (p ++ [".git"]) = true) := by simp [h1]
        rw [if_neg h1f, if_neg h1f, if_neg h2, if_neg h2]
        exact (ih p.dropLast hlt).1

/-- Witness for C6: fuel 3 suffices for the two-component path `/a/b` in the
empty filesystem. -/
theorem repo_find_terminates_witness :
    repo_find_fuel [] 3 ["a", "b"] false = repo_find [] ["a", "b"] false
      ∧ ((["a", "b"] : FsPath).dropLast = ["a", "b"] ↔ (["a", "b"] : FsPath) = []) :=
  repo_find_terminates [] false 3 ["a", "b"] (by decide)

/-- A concrete initialized repository at `/r` (control directory with a
configuration file recording format version 0) containing the nested
subdirectory `/r/sub/deep`. -/
def demoRepoFS : FS :=
  [(["r"], .dir),
   (["r", ".git"], .dir),
   (["r", ".git", "config"], .file (.ini repo_default_config)),
   (["r", "sub"], .dir),
   (["r", "sub", "deep"], .dir)]

/-- C5 (code bug): walking up from `/r/sub/deep`, `repo_find` does find the
repository root `/r`, but constructing the handle runs the `force = False`
branch of `GitRepository.__init__`, whose line 66 raises `NameError` on the
unbound identifier `reposiositoryformatversion` — so no handle is ever
returned.  From a path outside any repository the required/optional outcomes
are as specified. -/
theorem repo_find_match_name_error :
    repo_find demoRepoFS ["r", "sub", "deep"] true = .error .nameError ∧
    repo_find demoRepoFS ["x", "y"] true = .error .notARepository ∧
    repo_find demoRepoFS ["x", "y"] false = .ok none := by
  refine ⟨?_, ?_, ?_⟩ <;> simp +decide [repo_find]

/-- C3 (code bug): opening the initialized repository `/r` — whose
configuration file exists and records format version `"0"` — with
`force = False` raises `NameError` at line 66 before any version value is
ever compared, instead of accepting version 0. -/
theorem gitRepository_open_name_error :
    gitRepositoryInit demoRepoFS ["r"] false = .error .nameError := by
  decide

-- --- CLAIM THEOREM: object_read ON MISSING OBJECTS (C1) --- --

/-- A repository whose object store contains no shard directories. -/
def objectsOnlyFS : FS :=
  [(["r"], .dir), (["r", ".git"], .dir), (["r", ".git", "objects"], .dir)]

/-- C1 (code bug): when the two-character shard directory `objects/e9` does
not exist, `repo_file` returns `None` and `object_read` calls
`os.path.isfile(None)`, which raises `TypeError` — it does not return the
absent result.  When the shard directory exists but the object file does not,
`object_read` does return the absent result. -/
theorem object_read_missing_shard_type_error :
    object_read objectsOnlyFS ⟨["r"], ["r", ".git"]⟩
        "e965047ad7c57865823c7d992b1d046ea66edf78" = .error .typeError ∧
    object_read ((["r", ".git", "objects", "e9"], FsNode.dir) :: objectsOnlyFS)
        ⟨["r"], ["r", ".git"]⟩
        "e965047ad7c57865823c7d992b1d046ea66edf78" = .ok none := by
  constructor <;> decide

-- --- FILESYSTEM STACK LEMMAS --- --

theorem fsGet_append (a b : FS) (q : FsPath) :
    fsGet (a ++ b) q = match fsGet a q with
      | some n => some n
      | none => fsGet b q := by
  induction a with
  | nil => simp [fsGet]
  | cons e rest ih =>
    obtain ⟨k, n⟩ := e
    by_cases h : k = q
    · simp [fsGet, h]
    · simp [fsGet, h, ih]

theorem fsGet_mem :
    ∀ {fs : FS} {q : FsPath} {n : FsNode}, fsGet fs q = some n → (q, n) ∈ fs
  | [], q, n, h => by simp [fsGet] at h
  | (k, m) :: rest, q, n, h => by
    simp only [fsGet] at h
    by_cases hk : k = q
    · rw [if_pos hk] at h
      simp at h
      subst hk
      subst h
      exact List.mem_cons_self _ _
    · rw [if_neg hk] at h
      exact List.mem_cons_of_mem _ (fsGet_mem h)

theorem fsGet_dirList (L : List FsPath) (q : FsPath) :
    fsGet (L.filterMap (fun r => if r = [] then none else some (r, FsNode.dir))) q
      = if q ≠ [] ∧ q ∈ L then some .dir else none := by
  induction L with
  | nil => simp [fsGet]
  | cons r L2 ih =>
    by_cases hr : r = []
    · subst hr
      have hstep : List.filterMap
          (fun r => if r = [] then none else some (r, FsNode.dir)) ([] :: L2)
          = List.filterMap (fun r => if r = [] then none else some (r, FsNode.dir)) L2 := by
        simp
      rw [hstep, ih]
      by_cases hq : q = []
      · simp [hq]
      · simp [hq, List.mem_cons]
    · have hstep : List.filterMap
          (fun r => if r = [] then none else some (r, FsNode.dir)) (r :: L2)
          = (r, FsNode.dir) :: List.filterMap
              (fun r => if r = [] then none else some (r, FsNode.dir)) L2 := by
        simp [hr]
      rw [hstep]
      by_cases hq : r = q
      · subst hq
        simp [fsGet, hr]
      · simp only [fsGet, if_neg hq]
        rw [ih]
        by_cases hq2 : q = []
        · simp [hq2]
        · have hmem : (q ∈ r :: L2) ↔ (q ∈ L2) := by
            rw [List.mem_cons]
            constructor
            · intro hc
              cases hc with
              | inl he => exact absurd he.symm hq
              | inr he => exact he
            · exact Or.inr
          simp [hq2, hmem]

theorem fsGet_dirEntries (p q : FsPath) :
    fsGet (dirEntries p) q = if q ≠ [] ∧ q <+: p then some .dir else none := by
  rw [dirEntries, fsGet_dirList]
  by_cases h : q <+: p
  · simp [h, List.mem_inits]
  · simp [h, List.mem_inits]

/-- The filesystem after a sequence of `os.makedirs` calls on top of `fs`. -/
def stackFS (L : List FsPath) (fs : FS) : FS :=
  (L.map dirEntries).flatten ++ fs

theorem stackFS_nil (fs : FS) : stackFS [] fs = fs := by
  simp [stackFS]

theorem stackFS_cons (r : FsPath) (L : List FsPath) (fs : FS) :
    stackFS (r :: L) fs = dirEntries r ++ stackFS L fs := by
  simp [stackFS]

theorem fsGet_stack (L : List FsPath) (fs : FS) (q : FsPath) :
    fsGet (stackFS L fs) q
      = if q ≠ [] ∧ (∃ r ∈ L, q <+: r) then some .dir else fsGet fs q := by
  induction L with
  | nil => simp [stackFS_nil]
  | cons r L2 ih =>
    rw [stackFS_cons, fsGet_append, fsGet_dirEntries, ih]
    by_cases hq : q = []
    · simp [hq]
    · by_cases h1 : q <+: r
      · simp [hq, h1]
      · by_cases h2 : ∃ s ∈ L2, q <+: s
        · simp [hq, h1, h2]
        · have h3 : ¬ ∃ s ∈ r :: L2, q <+: s := by
            intro ⟨s, hs, hps⟩
            cases List.mem_cons.mp hs with
            | inl he => exact h1 (he ▸ hps)
            | inr he => exact h2 ⟨s, he, hps⟩
          simp [hq, h1, h2, h3]

-- --- PREFIX AND FRESHNESS LEMMAS --- --

theorem append_prefix_iff (p a b : List String) :
    (p ++ a <+: p ++ b) ↔ (a <+: b) := by
  constructor
  · intro h
    obtain ⟨t, ht⟩ := h
    rw [List.append_assoc] at ht
    exact ⟨t, List.append_cancel_left ht⟩
  · intro h
    obtain ⟨t, ht⟩ := h
    exact ⟨t, by rw [List.append_assoc, ht]⟩

theorem not_prefix_of_longer {a b : List String} (h : b.length < a.length) :
    ¬ a <+: b :=
  fun hp => absurd hp.length_le (by omega)

theorem not_prefix_bool {a b : List String} (h : a.isPrefixOf b = false) :
    ¬ a <+: b := by
  intro hp
  rw [← List.isPrefixOf_iff_prefix] at hp
  rw [h] at hp
  exact Bool.noConfusion hp

/-- The starting point is fresh: no filesystem entry lies at or below `path`,
and no prefix of `path` (the directories `os.makedirs` must create or
traverse) is an existing regular file. -/
def freshB (fs : FS) (path : FsPath) : Bool :=
  fs.all (fun e => !(path.isPrefixOf e.1)) &&
    path.inits.all (fun q => !(fsIsFile fs q))

theorem fresh_get_none {fs : FS} {path q : FsPath}
    (h : freshB fs path = true) (hq : path <+: q) : fsGet fs q = none := by
  cases hg : fsGet fs q with
  | none => rfl
  | some n =>
    have hmem := fsGet_mem hg
    simp only [freshB, Bool.and_eq_true, List.all_eq_true] at h
    have := h.1 (q, n) hmem
    simp only [Bool.not_eq_true'] at this
    exact absurd hq (not_prefix_bool this)

theorem fresh_not_file {fs : FS} {path q : FsPath}
    (h : freshB fs path = true) (hq : q <+: path) : fsIsFile fs q = false := by
  simp only [freshB, Bool.and_eq_true, List.all_eq_true] at h
  have := h.2 q ((List.mem_inits _ _).mpr hq)
  simpa using this

theorem fresh_no_file_comparable {fs : FS} {path q : FsPath}
    (h : freshB fs path = true) (hc : q <+: path ∨ path <+: q) :
    fsIsFile fs q = false := by
  cases hc with
  | inl h1 => exact fresh_not_file h h1
  | inr h1 => simp [fsIsFile, fresh_get_none h h1]

theorem fsIsFile_stack (L : List FsPath) (fs : FS) (q : FsPath)
    (h : fsIsFile fs q = false) : fsIsFile (stackFS L fs) q = false := by
  simp only [fsIsFile, fsGet_stack]
  split_ifs with hc
  · rfl
  · simpa [fsIsFile] using h

theorem exists_stack_false (L : List FsPath) (fs : FS) (path p : FsPath)
    (hfresh : freshB fs path = true) (hp : path <+: p)
    (hnotin : ∀ r ∈ L, ¬ p <+: r) :
    fsExists (stackFS L fs) p = false := by
  have hnone : fsGet fs p = none := fresh_get_none hfresh hp
  simp only [fsExists, fsGet_stack]
  have hno : ¬ (p ≠ [] ∧ ∃ r ∈ L, p <+: r) := by
    intro ⟨_, r, hr, hpr⟩
    exact hnotin r hr hpr
  rw [if_neg hno, hnone]
  rfl

theorem mkdirs_stack_ok (L : List FsPath) (fs : FS) (path p : FsPath)
    (hfresh : freshB fs path = true) (hp : path <+: p) :
    fsMkdirs (stackFS L fs) p = .ok (dirEntries p ++ stackFS L fs) := by
  rw [fsMkdirs]
  have hguard : (p.inits.any (fun q => decide (q ≠ []) && fsIsFile (stackFS L fs) q)) = false := by
    rw [List.any_eq_false]
    intro q hq
    have hqp : q <+: p := (List.mem_inits _ _).mp hq
    by_cases hqe : q = []
    · simp [hqe]
    · have hcomp : q <+: path ∨ path <+: q := by
        cases List.prefix_or_prefix_of_prefix hqp hp with
        | inl h1 => exact Or.inl h1
        | inr h1 => exact Or.inr h1
      have := fsIsFile_stack L fs q (fresh_no_file_comparable hfresh hcomp)
      simp [this]
  have hneg : ¬ ((p.inits.any fun q => decide (q ≠ []) && fsIsFile (stackFS L fs) q) = true) := by
    rw [hguard]
    exact Bool.false_ne_true
  rw [if_neg hneg]

-- --- CLAIM THEOREM: PATH RESOLVER (C7) --- --

/-- C7: `repo_dir` (the spec's `resolve_dir`) returns the joined path
unchanged when it exists as a directory, fails with `Not a directory` when it
exists as something else, and on an absent path either creates every missing
intermediate directory and returns the path (`mkdir = true`, provided no
prefix collides with a regular file) or returns the absent result without
error (`mkdir = false`). -/
theorem repo_dir_cases (fs : FS) (repo : Repo) (path : List String) (mkdir : Bool) :
    (fsIsDir fs (repo_path repo path) = true →
      repo_dir fs repo path mkdir = .ok (some (repo_path repo path), fs))
    ∧ (fsExists fs (repo_path repo path) = true →
        fsIsDir fs (repo_path repo path) = false →
        repo_dir fs repo path mkdir = .error .notADirectory)
    ∧ (fsExists fs (repo_path repo path) = false → mkdir = false →
        repo_dir fs repo path mkdir = .ok (none, fs))
    ∧ (fsExists fs (repo_path repo path) = false → mkdir = true →
        (∀ q ∈ (repo_path repo path).inits, q ≠ [] → fsIsFile fs q = false) →
        repo_dir fs repo path mkdir
            = .ok (some (repo_path repo path),
                dirEntries (repo_path repo path) ++ fs)
          ∧ (∀ q ∈ (repo_path repo path).inits, q ≠ [] →
              fsIsDir (dirEntries (repo_path repo path) ++ fs) q = true)) := by
  refine ⟨?_, ?_, ?_, ?_⟩
  · intro h
    have hg : fsGet fs (repo_path repo path) = some .dir := by
      simpa [fsIsDir] using h
    have hex : fsExists fs (repo_path repo path) = true := by
      simp [fsExists, hg]
    simp [repo_dir, hex, h]
  · intro hex hdir
    simp [repo_dir, hex, hdir]
  · intro hex hmk
    subst hmk
    simp [repo_dir, hex]
  · intro hex hmk hfile
    subst hmk
    have hmkok : fsMkdirs fs (repo_path repo path)
        = .ok (dirEntries (repo_path repo path) ++ fs) := by
      rw [fsMkdirs]
      have hguard : ((repo_path repo path).inits.any
          (fun q => decide (q ≠ []) && fsIsFile fs q)) = false := by
        rw [List.any_eq_false]
        intro q hq
        by_cases hqe : q = []
        · simp [hqe]
        · simp [hfile q hq hqe]
      rw [if_neg (by rw [hguard]; exact Bool.false_ne_true)]
    constructor
    · simp [repo_dir, hex, hmkok]
    · intro q hq hqe
      have hqp : q <+: repo_path repo path := (List.mem_inits _ _).mp hq
      simp [fsIsDir, fsGet_append, fsGet_dirEntries, hqe, hqp]

/-- Witness for C7: in a filesystem holding only the control directory,
resolving `refs/tags` with `create = true` creates the intermediate `refs`
directory and returns the path. -/
theorem repo_dir_cases_witness :
    repo_dir [(["w", ".git"], FsNode.dir)] ⟨["w"], ["w", ".git"]⟩
        ["refs", "tags"] true
      = .ok (some (repo_path ⟨["w"], ["w", ".git"]⟩ ["refs", "tags"]),
          dirEntries (repo_path ⟨["w"], ["w", ".git"]⟩ ["refs", "tags"])
            ++ [(["w", ".git"], FsNode.dir)])
    ∧ fsIsDir (dirEntries (repo_path ⟨["w"], ["w", ".git"]⟩ ["refs", "tags"])
        ++ [(["w", ".git"], FsNode.dir)]) ["w", ".git", "refs"] = true := by
  have h := (repo_dir_cases [(["w", ".git"], FsNode.dir)] ⟨["w"], ["w", ".git"]⟩
    ["refs", "tags"] true).2.2.2 (by decide) rfl (by decide)
  exact ⟨h.1, h.2 ["w", ".git", "refs"] (by decide) (by decide)⟩

-- --- repo_create ON A FRESH PATH --- --

theorem append_inj_iff (p a b : List String) : (p ++ a = p ++ b) ↔ a = b :=
  ⟨List.append_cancel_left, fun h => by rw [h]⟩

theorem fsIsDir_stack (L : List FsPath) (fs : FS) (q : FsPath)
    (hq : q ≠ []) (hr : ∃ r ∈ L, q <+: r) :
    fsIsDir (stackFS L fs) q = true := by
  simp [fsIsDir, fsGet_stack, hq, hr]

theorem fsIsDir_write_other (fs : FS) (p q : FsPath) (c : FileContent)
    (hne : p ≠ q) : fsIsDir (fsWrite fs p c) q = fsIsDir fs q := by
  simp [fsIsDir, fsWrite, fsGet, hne]

theorem fsGet_write_other (fs : FS) (p q : FsPath) (c : FileContent)
    (hne : p ≠ q) : fsGet (fsWrite fs p c) q = fsGet fs q := by
  simp [fsWrite, fsGet, hne]

theorem fsGet_write_self (fs : FS) (p : FsPath) (c : FileContent) :
    fsGet (fsWrite fs p c) p = some (.file c) := by
  simp [fsWrite, fsGet]

theorem repo_dir_step (L : List FsPath) (fs : FS) (path : FsPath) (repo : Repo)
    (args : List String) (hfresh : freshB fs path = true)
    (hnotin : ∀ r ∈ L, ¬ (repo_path repo args) <+: r)
    (hp : path <+: repo_path repo args) :
    repo_dir (stackFS L fs) repo args true
      = .ok (some (repo_path repo args),
          stackFS (repo_path repo args :: L) fs) := by
  have hex := exists_stack_false L fs path (repo_path repo args) hfresh hp hnotin
  have hmk := mkdirs_stack_ok L fs path (repo_path repo args) hfresh hp
  rw [repo_dir]
  simp [hex, hmk, stackFS_cons]

theorem repo_file_ready (fs2 : FS) (repo : Repo) (name : String)
    (hdir : fsIsDir fs2 (repo_path repo []) = true) :
    repo_file fs2 repo [name] false = .ok (some (repo_path repo [name]), fs2) := by
  have hget : fsGet fs2 (repo_path repo []) = some .dir := by
    simpa [fsIsDir] using hdir
  have hex : fsExists fs2 (repo_path repo []) = true := by
    simp [fsExists, hget]
  rw [repo_file]
  rw [show ([name] : List String).dropLast = [] from rfl]
  simp [repo_dir, hex, hdir]

/-- The filesystem produced by a successful `repo_create` on a fresh path:
the four `os.makedirs` calls stacked over the original filesystem, then the
three file writes. -/
def fsCreated (fs : FS) (path : FsPath) : FS :=
  let repo : Repo := ⟨path, path ++ [".git"]⟩
  fsWrite (fsWrite (fsWrite
      (stackFS [repo_path repo ["refs", "heads"], repo_path repo ["refs", "tags"],
        repo_path repo ["objects"], repo_path repo ["branches"], path] fs)
      (repo_path repo ["descriotion"])
      (.text "Unnamed repository; edit this file 'description' to name the repository.\n"))
      (repo_path repo ["HEAD"]) (.text "ref: refs/heads/master\n"))
      (repo_path repo ["config"]) (.ini repo_default_config)

theorem path_prefix_rp (path : FsPath) (args : List String) :
    path <+: repo_path ⟨path, path ++ [".git"]⟩ args := by
  simp only [repo_path]
  rw [List.append_assoc]
  exact List.prefix_append _ _

theorem rp_len (path : FsPath) (args : List String) :
    ¬ repo_path ⟨path, path ++ [".git"]⟩ args <+: path :=
  not_prefix_of_longer (by
    simp only [repo_path, List.length_append, List.length_cons, List.length_nil]
    omega)

theorem rp_not_prefix (path : FsPath) (a b : List String)
    (hab : a.isPrefixOf b = false) :
    ¬ repo_path ⟨path, path ++ [".git"]⟩ a
        <+: repo_path ⟨path, path ++ [".git"]⟩ b := by
  simp only [repo_path]
  rw [append_prefix_iff]
  exact not_prefix_bool hab

theorem rp_ne_nil (path : FsPath) (args : List String) :
    repo_path ⟨path, path ++ [".git"]⟩ args ≠ [] := by
  simp only [repo_path]
  intro hc
  have := congrArg List.length hc
  simp [List.length_append] at this

theorem repo_create_fresh (fs : FS) (path : FsPath) (h : freshB fs path = true) :
    repo_create fs path = .ok (⟨path, path ++ [".git"]⟩, fsCreated fs path) := by
  have hnone0 : fsGet fs (path ++ [".git"]) = none :=
    fresh_get_none h (List.prefix_append _ _)
  have e0 : gitRepositoryInit fs path true = .ok ⟨path, path ++ [".git"]⟩ := by
    simp [gitRepositoryInit, repo_file, repo_dir, repo_path, fsExists, hnone0]
  have hwex : fsExists fs path = false := by
    simp [fsExists, fresh_get_none h (List.prefix_refl path)]
  have hmk0 : fsMkdirs fs path = .ok (stackFS [path] fs) := by
    have hh := mkdirs_stack_ok [] fs path path h (List.prefix_refl path)
    rw [stackFS_nil] at hh
    rw [hh, stackFS_cons, stackFS_nil]
  have e1 := repo_dir_step [path] fs path ⟨path, path ++ [".git"]⟩ ["branches"] h
    (by
      intro r hr
      simp only [List.mem_singleton] at hr
      rw [hr]
      exact rp_len path ["branches"])
    (path_prefix_rp path ["branches"])
  have e2 := repo_dir_step
      [repo_path ⟨path, path ++ [".git"]⟩ ["branches"], path]
      fs path ⟨path, path ++ [".git"]⟩ ["objects"] h
    (by
      intro r hr
      simp only [List.mem_cons, List.not_mem_nil, or_false] at hr
      rcases hr with h1 | h1
      · rw [h1]
        exact rp_not_prefix path ["objects"] ["branches"] (by decide)
      · rw [h1]
        exact rp_len path ["objects"])
    (path_prefix_rp path ["objects"])
  have e3 := repo_dir_step
      [repo_path ⟨path, path ++ [".git"]⟩ ["objects"],
       repo_path ⟨path, path ++ [".git"]⟩ ["branches"], path]
      fs path ⟨path, path ++ [".git"]⟩ ["refs", "tags"] h
    (by
      intro r hr
      simp only [List.mem_cons, List.not_mem_nil, or_false] at hr
      rcases hr with h1 | h1 | h1
      · rw [h1]
        exact rp_not_prefix path ["refs", "tags"] ["objects"] (by decide)
      · rw [h1]
        exact rp_not_prefix path ["refs", "tags"] ["branches"] (by decide)
      · rw [h1]
        exact rp_len path ["refs", "tags"])
    (path_prefix_rp path ["refs", "tags"])
  have e4 := repo_dir_step
      [repo_path ⟨path, path ++ [".git"]⟩ ["refs", "tags"],
       repo_path ⟨path, path ++ [".git"]⟩ ["objects"],
       repo_path ⟨path, path ++ [".git"]⟩ ["branches"], path]
      fs path ⟨path, path ++ [".git"]⟩ ["refs", "heads"] h
    (by
      intro r hr
      simp only [List.mem_cons, List.not_mem_nil, or_false] at hr
      rcases hr with h1 | h1 | h1 | h1
      · rw [h1]
        exact rp_not_prefix path ["refs", "heads"] ["refs", "tags"] (by decide)
      · rw [h1]
        exact rp_not_prefix path ["refs", "heads"] ["objects"] (by decide)
      · rw [h1]
        exact rp_not_prefix path ["refs", "heads"] ["branches"] (by decide)
      · rw [h1]
        exact rp_len path ["refs", "heads"])
    (path_prefix_rp path ["refs", "heads"])
  have hdir5 : fsIsDir
      (stackFS [repo_path ⟨path, path ++ [".git"]⟩ ["refs", "heads"],
        repo_path ⟨path, path ++ [".git"]⟩ ["refs", "tags"],
        repo_path ⟨path, path ++ [".git"]⟩ ["objects"],
        repo_path ⟨path, path ++ [".git"]⟩ ["branches"], path] fs)
      (repo_path ⟨path, path ++ [".git"]⟩ []) = true := by
    apply fsIsDir_stack
    · exact rp_ne_nil path []
    · refine ⟨repo_path ⟨path, path ++ [".git"]⟩ ["branches"], by simp, ?_⟩
      simp only [repo_path]
      rw [append_prefix_iff]
      exact List.nil_prefix
  have eD := repo_file_ready _ ⟨path, path ++ [".git"]⟩ "descriotion" hdir5
  have hdir7 : fsIsDir
      (fsWrite (stackFS [repo_path ⟨path, path ++ [".git"]⟩ ["refs", "heads"],
        repo_path ⟨path, path ++ [".git"]⟩ ["refs", "tags"],
        repo_path ⟨path, path ++ [".git"]⟩ ["objects"],
        repo_path ⟨path, path ++ [".git"]⟩ ["branches"], path] fs)
        (repo_path ⟨path, path ++ [".git"]⟩ ["descriotion"])
        (.text "Unnamed repository; edit this file 'description' to name the repository.\n"))
      (repo_path ⟨path, path ++ [".git"]⟩ []) = true := by
    rw [fsIsDir_write_other]
    · exact hdir5
    · simp only [repo_path, ne_eq, append_inj_iff]
      decide
  have eH := repo_file_ready _ ⟨path, path ++ [".git"]⟩ "HEAD" hdir7
  have hdir8 : fsIsDir
      (fsWrite (fsWrite (stackFS [repo_path ⟨path, path ++ [".git"]⟩ ["refs", "heads"],
        repo_path ⟨path, path ++ [".git"]⟩ ["refs", "tags"],
        repo_path ⟨path, path ++ [".git"]⟩ ["objects"],
        repo_path ⟨path, path ++ [".git"]⟩ ["branches"], path] fs)
        (repo_path ⟨path, path ++ [".git"]⟩ ["descriotion"])
        (.text "Unnamed repository; edit this file 'description' to name the repository.\n"))
        (repo_path ⟨path, path ++ [".git"]⟩ ["HEAD"])
        (.text "ref: refs/heads/master\n"))
      (repo_path ⟨path, path ++ [".git"]⟩ []) = true := by
    rw [fsIsDir_write_other]
    · exact hdir7
    · simp only [repo_path, ne_eq, append_inj_iff]
      decide
  have eC := repo_file_ready _ ⟨path, path ++ [".git"]⟩ "config" hdir8
  rw [repo_create, e0]
  simp only [hwex, Bool.false_eq_true, if_false, hmk0]
  simp only [e1, e2, e3, e4, assertSome, eD, eH, eC, openForWrite, fsCreated]

theorem rp_ne (path : FsPath) (a b : List String) (hab : a ≠ b) :
    repo_path ⟨path, path ++ [".git"]⟩ a ≠ repo_path ⟨path, path ++ [".git"]⟩ b := by
  simp only [repo_path, ne_eq, append_inj_iff]
  exact hab

-- --- CLAIM THEOREMS: REPOSITORY INITIALIZATION (C4, C10) --- --

/-- C4 (amended): after `repo_create` succeeds on a fresh path, the control
directory contains the subdirectories `objects`, `refs/heads` and
`refs/tags`, a `HEAD` text file containing exactly `ref: refs/heads/master`
and a newline, a `config` file whose section `core` holds the keys
`reposiositoryformatversion` (the source's spelling) set to `"0"`,
`filemode`, and `bare`, and a free-text file named `descriotion` (the
source's spelling). -/
theorem repo_create_layout (fs : FS) (path : FsPath) (h : freshB fs path = true) :
    repo_create fs path = .ok (⟨path, path ++ [".git"]⟩, fsCreated fs path)
    ∧ fsIsDir (fsCreated fs path) (path ++ [".git", "objects"]) = true
    ∧ fsIsDir (fsCreated fs path) (path ++ [".git", "refs", "heads"]) = true
    ∧ fsIsDir (fsCreated fs path) (path ++ [".git", "refs", "tags"]) = true
    ∧ fsGet (fsCreated fs path) (path ++ [".git", "HEAD"])
        = some (.file (.text "ref: refs/heads/master\n"))
    ∧ fsGet (fsCreated fs path) (path ++ [".git", "config"])
        = some (.file (.ini repo_default_config))
    ∧ (List.lookup "core" repo_default_config).bind
        (List.lookup "reposiositoryformatversion") = some "0"
    ∧ (List.lookup "core" repo_default_config).bind (List.lookup "filemode")
        = some "false"
    ∧ (List.lookup "core" repo_default_config).bind (List.lookup "bare")
        = some "false"
    ∧ fsGet (fsCreated fs path) (path ++ [".git", "descriotion"])
        = some (.file (.text "Unnamed repository; edit this file 'description' to name the repository.\n")) := by
  have hobj : fsIsDir (fsCreated fs path)
      (repo_path ⟨path, path ++ [".git"]⟩ ["objects"]) = true := by
    simp only [fsCreated]
    rw [fsIsDir_write_other _ _ _ _ (rp_ne path ["config"] ["objects"] (by decide)),
      fsIsDir_write_other _ _ _ _ (rp_ne path ["HEAD"] ["objects"] (by decide)),
      fsIsDir_write_other _ _ _ _ (rp_ne path ["descriotion"] ["objects"] (by decide))]
    apply fsIsDir_stack
    · exact rp_ne_nil path ["objects"]
    · exact ⟨_, by simp, List.prefix_refl _⟩
  have hheads : fsIsDir (fsCreated fs path)
      (repo_path ⟨path, path ++ [".git"]⟩ ["refs", "heads"]) = true := by
    simp only [fsCreated]
    rw [fsIsDir_write_other _ _ _ _ (rp_ne path ["config"] ["refs", "heads"] (by decide)),
      fsIsDir_write_other _ _ _ _ (rp_ne path ["HEAD"] ["refs", "heads"] (by decide)),
      fsIsDir_write_other _ _ _ _ (rp_ne path ["descriotion"] ["refs", "heads"] (by decide))]
    apply fsIsDir_stack
    · exact rp_ne_nil path ["refs", "heads"]
    · exact ⟨_, by simp, List.prefix_refl _⟩
  have htags : fsIsDir (fsCreated fs path)
      (repo_path ⟨path, path ++ [".git"]⟩ ["refs", "tags"]) = true := by
    simp only [fsCreated]
    rw [fsIsDir_write_other _ _ _ _ (rp_ne path ["config"] ["refs", "tags"] (by decide)),
      fsIsDir_write_other _ _ _ _ (rp_ne path ["HEAD"] ["refs", "tags"] (by decide)),
      fsIsDir_write_other _ _ _ _ (rp_ne path ["descriotion"] ["refs", "tags"] (by decide))]
    apply fsIsDir_stack
    · exact rp_ne_nil path ["refs", "tags"]
    · exact ⟨_, by simp, List.prefix_refl _⟩
  have hhead : fsGet (fsCreated fs path)
      (repo_path ⟨path, path ++ [".git"]⟩ ["HEAD"])
      = some (.file (.text "ref: refs/heads/master\n")) := by
    simp only [fsCreated]
    rw [fsGet_write_other _ _ _ _ (rp_ne path ["config"] ["HEAD"] (by decide))]
    exact fsGet_write_self _ _ _
  have hconf : fsGet (fsCreated fs path)
      (repo_path ⟨path, path ++ [".git"]⟩ ["config"])
      = some (.file (.ini repo_default_config)) := by
    simp only [fsCreated]
    exact fsGet_write_self _ _ _
  have hdesc : fsGet (fsCreated fs path)
      (repo_path ⟨path, path ++ [".git"]⟩ ["descriotion"])
      = some (.file (.text "Unnamed repository; edit this file 'description' to name the repository.\n")) := by
    simp only [fsCreated]
    rw [fsGet_write_other _ _ _ _ (rp_ne path ["config"] ["descriotion"] (by decide)),
      fsGet_write_other _ _ _ _ (rp_ne path ["HEAD"] ["descriotion"] (by decide))]
    exact fsGet_write_self _ _ _
  refine ⟨repo_create_fresh fs path h, ?_, ?_, ?_, ?_, ?_, by decide, by decide,
    by decide, ?_⟩
  · rw [show (path ++ [".git", "objects"] : FsPath)
      = repo_path ⟨path, path ++ [".git"]⟩ ["objects"] from by simp [repo_path]]
    exact hobj
  · rw [show (path ++ [".git", "refs", "heads"] : FsPath)
      = repo_path ⟨path, path ++ [".git"]⟩ ["refs", "heads"] from by simp [repo_path]]
    exact hheads
  · rw [show (path ++ [".git", "refs", "tags"] : FsPath)
      = repo_path ⟨path, path ++ [".git"]⟩ ["refs", "tags"] from by simp [repo_path]]
    exact htags
  · rw [show (path ++ [".git", "HEAD"] : FsPath)
      = repo_path ⟨path, path ++ [".git"]⟩ ["HEAD"] from by simp [repo_path]]
    exact hhead
  · rw [show (path ++ [".git", "config"] : FsPath)
      = repo_path ⟨path, path ++ [".git"]⟩ ["config"] from by simp [repo_path]]
    exact hconf
  · rw [show (path ++ [".git", "descriotion"] : FsPath)
      = repo_path ⟨path, path ++ [".git"]⟩ ["descriotion"] from by simp [repo_path]]
    exact hdesc

/-- Witness for the amended C4 at the fresh path `/tmp/r` in the empty
filesystem. -/
theorem repo_create_layout_witness :
    freshB [] ["tmp", "r"] = true ∧
    (repo_create [] ["tmp", "r"]
        = .ok (⟨["tmp", "r"], ["tmp", "r"] ++ [".git"]⟩, fsCreated [] ["tmp", "r"])
      ∧ fsIsDir (fsCreated [] ["tmp", "r"]) (["tmp", "r"] ++ [".git", "objects"]) = true
      ∧ fsIsDir (fsCreated [] ["tmp", "r"]) (["tmp", "r"] ++ [".git", "refs", "heads"]) = true
      ∧ fsIsDir (fsCreated [] ["tmp", "r"]) (["tmp", "r"] ++ [".git", "refs", "tags"]) = true
      ∧ fsGet (fsCreated [] ["tmp", "r"]) (["tmp", "r"] ++ [".git", "HEAD"])
          = some (.file (.text "ref: refs/heads/master\n"))
      ∧ fsGet (fsCreated [] ["tmp", "r"]) (["tmp", "r"] ++ [".git", "config"])
          = some (.file (.ini repo_default_config))
      ∧ (List.lookup "core" repo_default_config).bind
          (List.lookup "reposiositoryformatversion") = some "0"
      ∧ (List.lookup "core" repo_default_config).bind (List.lookup "filemode")
          = some "false"
      ∧ (List.lookup "core" repo_default_config).bind (List.lookup "bare")
          = some "false"
      ∧ fsGet (fsCreated [] ["tmp", "r"]) (["tmp", "r"] ++ [".git", "descriotion"])
          = some (.file (.text "Unnamed repository; edit this file 'description' to name the repository.\n"))) :=
  ⟨by decide, repo_create_layout [] ["tmp", "r"] (by decide)⟩

/-- Counterexample for C4 as stated: after the successful initialization at
`/tmp/r`, the control directory holds no file named `description`, and the
`core` section of the written configuration holds no key
`repositoryformatversion` — the source writes `descriotion` and
`reposiositoryformatversion` instead. -/
theorem repo_create_claimed_names_counterexample :
    repo_create [] ["tmp", "r"]
        = .ok (⟨["tmp", "r"], ["tmp", "r", ".git"]⟩, fsCreated [] ["tmp", "r"])
    ∧ fsGet (fsCreated [] ["tmp", "r"]) ["tmp", "r", ".git", "description"] = none
    ∧ fsGet (fsCreated [] ["tmp", "r"]) ["tmp", "r", ".git", "config"]
        = some (.file (.ini repo_default_config))
    ∧ (List.lookup "core" repo_default_config).bind
        (List.lookup "repositoryformatversion") = none := by
  exact ⟨by decide, by decide, by decide, by decide⟩

/-- C10: initialization also creates the `branches` subdirectory inside the
control directory, and the `assert` wrapped around each of the four
`repo_dir` calls turns an absent result into a failure. -/
theorem repo_create_branches_and_assert (fs : FS) (path : FsPath)
    (h : freshB fs path = true) :
    repo_create fs path = .ok (⟨path, path ++ [".git"]⟩, fsCreated fs path)
    ∧ fsIsDir (fsCreated fs path) (path ++ [".git", "branches"]) = true
    ∧ assertSome none = (.error .assertionError : Except PyErr FsPath) := by
  have hbr : fsIsDir (fsCreated fs path)
      (repo_path ⟨path, path ++ [".git"]⟩ ["branches"]) = true := by
    simp only [fsCreated]
    rw [fsIsDir_write_other _ _ _ _ (rp_ne path ["config"] ["branches"] (by decide)),
      fsIsDir_write_other _ _ _ _ (rp_ne path ["HEAD"] ["branches"] (by decide)),
      fsIsDir_write_other _ _ _ _ (rp_ne path ["descriotion"] ["branches"] (by decide))]
    apply fsIsDir_stack
    · exact rp_ne_nil path ["branches"]
    · exact ⟨_, by simp, List.prefix_refl _⟩
  refine ⟨repo_create_fresh fs path h, ?_, rfl⟩
  rw [show (path ++ [".git", "branches"] : FsPath)
    = repo_path ⟨path, path ++ [".git"]⟩ ["branches"] from by simp [repo_path]]
  exact hbr

/-- Witness for C10 at the fresh path `/w/s` in the empty filesystem. -/
theorem repo_create_branches_and_assert_witness :
    freshB [] ["w", "s"] = true ∧
    (repo_create [] ["w", "s"]
        = .ok (⟨["w", "s"], ["w", "s"] ++ [".git"]⟩, fsCreated [] ["w", "s"])
      ∧ fsIsDir (fsCreated [] ["w", "s"]) (["w", "s"] ++ [".git", "branches"]) = true
      ∧ assertSome none = (.error .assertionError : Except PyErr FsPath)) :=
  ⟨by decide, repo_create_branches_and_assert [] ["w", "s"] (by decide)⟩
